import Mathlib

/-!
Shallow embedding of `src/server/sni/content/yaml.py`: the `WeightImporter`
class and the `run_weight_importer` entry point.

The database session is modelled as an explicit `DB` value holding the
`FileMetadata` table, the `YAMLFile` table, the target (`model`) table and
the optional parent (`parent_model`) table.  The environment `Env` fixes
the outcome of the external effects of one import call: the content hash
computed by `get_file_hash`, the wall-clock timestamp `datetime.now()`,
the result of opening and `yaml.safe_load`-ing the file (`none` models any
I/O or parse exception), and whether `db_session.commit()` raises.

`import_data` returns an `ImportResult` recording the outcome (an
`Except`, where `.error` models an uncaught `ValidationError`), the
session state and the committed state after the call, the `file_updated`
flag, the list of bulk-update statements issued, which steps ran, and the
diagnostic log lines printed.
-/

set_option autoImplicit false

namespace SNI

/-- A raw entry of the parsed YAML document: a dict with a `slug` string and
an integer `weight` (possibly negative, i.e. not yet validated). -/
structure RawEntry where
  slug : String
  weight : Int
deriving Repr, DecidableEq

/-- `SlugWeight`: the pydantic model `slug: str`, `weight: int = Field(ge=0)`.
A value of this type is a validated entry, so the weight is a `Nat`. -/
structure SlugWeight where
  slug : String
  weight : Nat
deriving Repr, DecidableEq

/-- A row of the `FileMetadata` table. -/
structure FileMetadata where
  filename : String
  hash : String
  last_modified : Nat
deriving Repr, DecidableEq

/-- A row of the `YAMLFile` table (`file_model`): linked to its
`FileMetadata` row by filename, and carrying the content type of the importer. -/
structure YAMLFile where
  filename : String
  content_type : String
deriving Repr, DecidableEq

/-- A row of the target table `self.model`: it has a primary key `id`, the
foreign key named by `self.parent_id` (used when `parent_model` is set), a
`slug` and a `weight` column. -/
structure TargetRow where
  id : Nat
  parent_id : Nat
  slug : String
  weight : Int
deriving Repr, DecidableEq

/-- A row of the optional `parent_model` table. -/
structure ParentRow where
  id : Nat
  weight : Int
deriving Repr, DecidableEq

/-- The database state: the four tables touched by the importer. -/
structure DB where
  metadata : List FileMetadata
  yaml_files : List YAMLFile
  rows : List TargetRow
  parents : List ParentRow
deriving Repr, DecidableEq

/-- The class-level configuration of a concrete `WeightImporter` subclass:
`content_type`, `file_path`, and whether `parent_model` is set (in which
case updates key on `parent_id` and target the parent table). -/
structure ImporterConfig where
  content_type : String
  file_path : String
  parent : Bool
deriving Repr

/-- The external effects fixed for one import call. -/
structure Env where
  currentHash : String
  now : Nat
  parseResult : Option (List RawEntry)
  commitFails : Bool
deriving Repr

/-- One dict of the bulk-update `mappings` list: `{"id": ..., "weight": ...}`. -/
structure Mapping where
  id : Nat
  weight : Int
deriving Repr, DecidableEq

/-- `select(FileMetadata).filter_by(filename=file_path)` followed by
`.first()`. -/
def findMetadata (db : DB) (path : String) : Option FileMetadata :=
  db.metadata.find? (fun m => m.filename == path)

/-- In-place mutation of the first `FileMetadata` row matching `path`:
`existing_metadata.hash = current_hash; existing_metadata.last_modified =
current_last_modified`. -/
def updateMetadata (ms : List FileMetadata) (path h : String) (t : Nat) :
    List FileMetadata :=
  match ms with
  | [] => []
  | m :: rest =>
    if m.filename == path then { m with hash := h, last_modified := t } :: rest
    else m :: updateMetadata rest path h t

/-- `WeightImporter.handle_file_metadata`: reconcile the file fingerprint.
Returns the new session state and the `file_updated` flag (which starts
`False` for a fresh importer instance). -/
def handle_file_metadata (cfg : ImporterConfig) (env : Env) (force : Bool)
    (db : DB) : DB × Bool :=
  match findMetadata db cfg.file_path with
  | some m =>
    if m.hash != env.currentHash || force then
      ({ db with metadata :=
          (updateMetadata db.metadata cfg.file_path env.currentHash env.now) },
       true)
    else (db, false)
  | none =>
    ({ db with
        metadata := db.metadata ++
          [{ filename := cfg.file_path, hash := env.currentHash,
             last_modified := env.now }],
        yaml_files := db.yaml_files ++
          [{ filename := cfg.file_path, content_type := cfg.content_type }] },
     true)

/-- The `try: open/yaml.safe_load ... except: print; return []` part of
`WeightImporter.load_yaml_data`.  Returns the parsed data and the log lines
printed. -/
def load_yaml_data (env : Env) : List RawEntry × List String :=
  match env.parseResult with
  | some d => (d, [])
  | none => ([], ["Error loading YAML data"])

/-- Validation of one entry against `SlugWeight` (`weight: int = Field(ge=0)`). -/
def validate_entry (e : RawEntry) : Option SlugWeight :=
  if 0 ≤ e.weight then some { slug := e.slug, weight := e.weight.toNat }
  else none

/-- Validation of the whole document against `SlugWeights` (a root list of
`SlugWeight`); `none` models a `ValidationError`. -/
def validate_list : List RawEntry → Option (List SlugWeight)
  | [] => some []
  | e :: rest =>
    match validate_entry e with
    | some w =>
      match validate_list rest with
      | some v => some (w :: v)
      | none => none
    | none => none

/-- `WeightImporter.validate_data`: on `ValidationError`, prints a
diagnostic and re-raises (modelled as `Except.error`). -/
def validate_data (data : List RawEntry) : Except String (List SlugWeight) :=
  match validate_list data with
  | some v => .ok v
  | none => .error ("Validation error")

/-- The `next((data for data in validated_data if data.slug == item.slug),
None)` lookup followed by `matching_data.weight if matching_data else 0`. -/
def resolveWeight (validated : List SlugWeight) (slug : String) : Int :=
  match validated.find? (fun d => d.slug == slug) with
  | some d => (d.weight : Int)
  | none => 0

/-- The `mappings` list built by `WeightImporter.process_data`: one dict per
item, keyed by the own id of the item, or by its `parent_id` when `parent_model`
is set. -/
def build_mappings (cfg : ImporterConfig) (items : List TargetRow)
    (validated : List SlugWeight) : List Mapping :=
  items.map (fun item =>
    { id := if cfg.parent then item.parent_id else item.id,
      weight := resolveWeight validated item.slug })

/-- Effect of one bulk-update dict on the target table: `UPDATE ... SET
weight = :weight WHERE id = :id`. -/
def applyMappingRow (rows : List TargetRow) (m : Mapping) : List TargetRow :=
  rows.map (fun r => if r.id == m.id then { r with weight := m.weight } else r)

/-- Effect of one bulk-update dict on the parent table. -/
def applyMappingParent (ps : List ParentRow) (m : Mapping) : List ParentRow :=
  ps.map (fun p => if p.id == m.id then { p with weight := m.weight } else p)

/-- `self.db_session.execute(update(update_class), mappings)` where
`update_class = self.parent_model if self.parent_model else self.model`. -/
def exec_update (cfg : ImporterConfig) (db : DB) (mappings : List Mapping) :
    DB :=
  if cfg.parent then
    { db with parents := mappings.foldl applyMappingParent db.parents }
  else
    { db with rows := mappings.foldl applyMappingRow db.rows }

/-- `WeightImporter.process_data`: build the mappings and issue the single
bulk update.  Returns the new session state and the mappings issued. -/
def process_data (cfg : ImporterConfig) (items : List TargetRow)
    (validated : List SlugWeight) (db : DB) : DB × List Mapping :=
  let ms := build_mappings cfg items validated
  (exec_update cfg db ms, ms)

/-- The observable result of one `import_data` call. -/
structure ImportResult where
  outcome : Except String Unit
  session_db : DB
  committed_db : DB
  file_updated : Bool
  updates : List (List Mapping)
  fileLoaded : Bool
  rowsLoaded : Bool
  validationRun : Bool
  commitAttempted : Bool
  log : List String
deriving Repr

/-- `WeightImporter.import_data` on a fresh importer instance, starting from
committed state `db`.  `load_yaml_data` first reconciles the fingerprint
(`handle_file_metadata`) and then unconditionally opens and parses the
file; only when `file_updated or force` are the target rows selected, the
data validated, the bulk update issued and the transaction committed.
`commit_changes` swallows a commit failure and rolls the session back. -/
def import_data (cfg : ImporterConfig) (env : Env) (force : Bool) (db : DB) :
    ImportResult :=
  let hm := handle_file_metadata cfg env force db
  let db1 := hm.1
  let updated := hm.2
  let ld := load_yaml_data env
  let yaml_data := ld.1
  let loadLog := ld.2
  if updated || force then
    let items := db1.rows
    match validate_data yaml_data with
    | .error e =>
      { outcome := .error e, session_db := db1, committed_db := db,
        file_updated := updated, updates := [], fileLoaded := true,
        rowsLoaded := true, validationRun := true, commitAttempted := false,
        log := loadLog ++ ["Validation error"] }
    | .ok validated =>
      let pd := process_data cfg items validated db1
      let db2 := pd.1
      let ms := pd.2
      if env.commitFails then
        { outcome := .ok (), session_db := db, committed_db := db,
          file_updated := updated, updates := [ms], fileLoaded := true,
          rowsLoaded := true, validationRun := true, commitAttempted := true,
          log := loadLog ++ ["Error committing changes to the database"] }
      else
        { outcome := .ok (), session_db := db2, committed_db := db2,
          file_updated := updated, updates := [ms], fileLoaded := true,
          rowsLoaded := true, validationRun := true, commitAttempted := true,
          log := loadLog }
  else
    { outcome := .ok (), session_db := db1, committed_db := db,
      file_updated := updated, updates := [], fileLoaded := true,
      rowsLoaded := false, validationRun := false, commitAttempted := false,
      log := loadLog }

/-- `run_weight_importer`: instantiate the importer, run `import_data` with
the explicit `force` flag ORed with `any(force_conditions)`, and return
`importer.file_updated`. -/
def run_weight_importer (cfg : ImporterConfig) (env : Env) (force : Bool)
    (force_conditions : List Bool) (db : DB) : ImportResult × Bool :=
  let r := import_data cfg env (force || force_conditions.any id) db
  (r, r.file_updated)

/-- Effect of one bulk-update dict on one target row. -/
def stepRow (r : TargetRow) (m : Mapping) : TargetRow :=
  if r.id == m.id then { r with weight := m.weight } else r

/-! ### Concrete fixtures used by witnesses and counterexamples -/

/-- A concrete importer configuration (direct model, no parent relation). -/
def cfgA : ImporterConfig := ⟨"skill", "weights.yaml", false⟩

/-- Three target rows with slugs a, b, c and stale weights. -/
def rowsA : List TargetRow :=
  [⟨1, 0, "a", 9⟩, ⟨2, 0, "b", 9⟩, ⟨3, 0, "c", 9⟩]

/-- A database that has never seen the file. -/
def dbA : DB := ⟨[], [], rowsA, []⟩

/-- An environment where the file parses to entries a=5 and b=3. -/
def envA : Env := ⟨"h1", 10, some [⟨"a", 5⟩, ⟨"b", 3⟩], false⟩

/-- A metadata row whose stored hash matches `envA`. -/
def mA : FileMetadata := ⟨"weights.yaml", "h1", 10⟩

/-- A database where the file is already tracked with the current hash. -/
def dbB : DB := ⟨[mA], [⟨"weights.yaml", "skill"⟩], rowsA, []⟩

/-- An environment whose file parses to an entry with a negative weight. -/
def envNegA : Env := ⟨"h2", 11, some [⟨"a", -1⟩], false⟩

/-- An environment where opening or parsing the file fails. -/
def envNoneA : Env := ⟨"h2", 11, none, false⟩

/-- An environment identical to `envA` except that the commit fails. -/
def envCFA : Env := ⟨"h1", 10, some [⟨"a", 5⟩, ⟨"b", 3⟩], true⟩

/-! ### Helper lemmas -/

theorem updateMetadata_find?_some {ms : List FileMetadata} {path : String}
    (h : String) (t : Nat) {m : FileMetadata}
    (hm : ms.find? (fun x => x.filename == path) = some m) :
    (updateMetadata ms path h t).find? (fun x => x.filename == path) =
      some { m with hash := h, last_modified := t } := by
  induction ms with
  | nil => simp [List.find?] at hm
  | cons a rest ih =>
    rcases ha : (a.filename == path) with _ | _
    · simp only [List.find?_cons, ha] at hm
      simp only [updateMetadata, ha, Bool.false_eq_true, if_false,
        List.find?_cons]
      exact ih hm
    · simp only [List.find?_cons, ha] at hm
      cases hm
      simp only [updateMetadata, ha, if_true]
      simp [List.find?_cons, ha]

theorem updateMetadata_length (ms : List FileMetadata) (path h : String)
    (t : Nat) : (updateMetadata ms path h t).length = ms.length := by
  induction ms with
  | nil => rfl
  | cons a rest ih =>
    simp only [updateMetadata]
    split <;> simp [ih]

theorem find?_append_of_none {α : Type} {l : List α} {p : α → Bool}
    (hl : l.find? p = none) (x : α) (hx : p x = true) :
    (l ++ [x]).find? p = some x := by
  induction l with
  | nil => simp [List.find?, hx]
  | cons a rest ih =>
    rcases hb : p a with _ | _
    · simp only [List.find?_cons, hb] at hl
      simp only [List.cons_append, List.find?_cons, hb]
      exact ih hl
    · simp [List.find?_cons, hb] at hl

/-- `handle_file_metadata` never touches the target or parent tables. -/
theorem handle_file_metadata_rows (cfg : ImporterConfig) (env : Env)
    (force : Bool) (db : DB) :
    (handle_file_metadata cfg env force db).1.rows = db.rows ∧
      (handle_file_metadata cfg env force db).1.parents = db.parents := by
  rcases hfind : findMetadata db cfg.file_path with _ | m
  · simp [handle_file_metadata, hfind]
  · by_cases hcond : (m.hash != env.currentHash || force) = true
    · simp [handle_file_metadata, hfind, hcond]
    · simp [handle_file_metadata, hfind, hcond]

/-- If the reconcile step reports no change, it also changed nothing. -/
theorem handle_file_metadata_noop {cfg : ImporterConfig} {env : Env}
    {force : Bool} {db : DB}
    (h : (handle_file_metadata cfg env force db).2 = false) :
    (handle_file_metadata cfg env force db).1 = db := by
  rcases hfind : findMetadata db cfg.file_path with _ | m
  · simp [handle_file_metadata, hfind] at h
  · by_cases hcond : (m.hash != env.currentHash || force) = true
    · simp [handle_file_metadata, hfind, hcond] at h
    · simp [handle_file_metadata, hfind, hcond]

/-- After a successful reconcile, the first metadata row for the path
carries the current content hash. -/
theorem handle_file_metadata_hash (cfg : ImporterConfig) (env : Env)
    (force : Bool) (db : DB) :
    ∃ m, findMetadata (handle_file_metadata cfg env force db).1 cfg.file_path
        = some m ∧ m.hash = env.currentHash := by
  rcases hfind : findMetadata db cfg.file_path with _ | m
  · refine ⟨⟨cfg.file_path, env.currentHash, env.now⟩, ?_, rfl⟩
    simp only [handle_file_metadata, hfind]
    exact find?_append_of_none hfind _ (by simp)
  · by_cases hcond : (m.hash != env.currentHash || force) = true
    · refine ⟨{ m with hash := env.currentHash, last_modified := env.now },
        ?_, rfl⟩
      simp only [handle_file_metadata, hfind, if_pos hcond]
      exact updateMetadata_find?_some env.currentHash env.now hfind
    · refine ⟨m, ?_, ?_⟩
      · simp [handle_file_metadata, hfind, hcond]
      · simp only [Bool.or_eq_true, bne_iff_ne, ne_eq, not_or,
          Bool.not_eq_true] at hcond
        exact not_not.mp hcond.1

/-- Characterization of the `file_updated` flag set by the reconcile step. -/
theorem handle_file_metadata_updated_iff (cfg : ImporterConfig) (env : Env)
    (force : Bool) (db : DB) :
    (handle_file_metadata cfg env force db).2 = true ↔
      (findMetadata db cfg.file_path = none ∨
        ∃ m, findMetadata db cfg.file_path = some m ∧
          (m.hash ≠ env.currentHash ∨ force = true)) := by
  rcases hfind : findMetadata db cfg.file_path with _ | m
  · simp [handle_file_metadata, hfind]
  · by_cases hcond : (m.hash != env.currentHash || force) = true
    · simp only [handle_file_metadata, hfind, if_pos hcond]
      simp only [Bool.or_eq_true, bne_iff_ne, ne_eq] at hcond
      simp only [true_iff]
      exact Or.inr ⟨m, by simp [hfind], hcond⟩
    · simp only [handle_file_metadata, hfind, if_neg hcond]
      simp only [Bool.or_eq_true, bne_iff_ne, ne_eq, not_or,
        Bool.not_eq_true] at hcond
      simp only [Bool.false_eq_true, false_iff, not_or]
      constructor
      · simp [hfind]
      · rintro ⟨m2, hm2, hbad⟩
        have hm2e : m2 = m := (Option.some_inj.mp hm2).symm
        subst hm2e
        rcases hbad with hne | hf
        · exact hne (not_not.mp hcond.1)
        · rw [hcond.2] at hf
          exact Bool.false_ne_true hf

theorem applyMappingRow_eq_map (rows : List TargetRow) (m : Mapping) :
    applyMappingRow rows m = rows.map (fun r => stepRow r m) := rfl

theorem foldl_applyMappingRow (ms : List Mapping) (rows : List TargetRow) :
    ms.foldl applyMappingRow rows = rows.map (fun r => ms.foldl stepRow r) := by
  induction ms generalizing rows with
  | nil => simp
  | cons m rest ih =>
    simp only [List.foldl_cons, applyMappingRow_eq_map, ih, List.map_map]
    rfl

theorem stepRow_id (r : TargetRow) (m : Mapping) : (stepRow r m).id = r.id := by
  unfold stepRow
  split <;> rfl

theorem stepRow_of_ne {r : TargetRow} {m : Mapping} (h : ¬ m.id = r.id) :
    stepRow r m = r := by
  unfold stepRow
  rw [if_neg]
  simp only [beq_iff_eq]
  exact fun hc => h hc.symm

theorem foldl_stepRow_of_ne {ms : List Mapping} {r : TargetRow}
    (h : ∀ m ∈ ms, ¬ m.id = r.id) : ms.foldl stepRow r = r := by
  induction ms with
  | nil => rfl
  | cons m rest ih =>
    rw [List.foldl_cons, stepRow_of_ne (h m (List.mem_cons_self m rest))]
    exact ih (fun m2 hm2 => h m2 (List.mem_cons_of_mem m hm2))

theorem foldl_stepRow_map {f : TargetRow → Mapping}
    (hf : ∀ x, (f x).id = x.id) :
    ∀ (rows : List TargetRow), (rows.map TargetRow.id).Nodup →
      ∀ r ∈ rows, (rows.map f).foldl stepRow r =
        { r with weight := (f r).weight } := by
  intro rows
  induction rows with
  | nil => intro _ r hr; cases hr
  | cons a rest ih =>
    intro hnd r hr
    rw [List.map_cons, List.nodup_cons] at hnd
    rcases List.mem_cons.mp hr with rfl | hr2
    · rw [List.map_cons, List.foldl_cons]
      have hstep : stepRow r (f r) = { r with weight := (f r).weight } := by
        unfold stepRow
        rw [if_pos (by simp [hf r])]
      rw [hstep]
      refine foldl_stepRow_of_ne ?_
      intro m hm hbad
      rcases List.mem_map.mp hm with ⟨x, hx, rfl⟩
      have hxr : x.id = r.id := (hf x).symm.trans hbad
      exact hnd.1 (hxr ▸ List.mem_map_of_mem TargetRow.id hx)
    · rw [List.map_cons, List.foldl_cons]
      have hne : ¬ (f a).id = r.id := by
        rw [hf a]
        intro hbad
        exact hnd.1 (hbad ▸ List.mem_map_of_mem TargetRow.id hr2)
      rw [stepRow_of_ne hne]
      exact ih hnd.2 r hr2

/-- `exec_update` never touches the metadata or imported-file tables. -/
theorem exec_update_metadata (cfg : ImporterConfig) (db : DB)
    (ms : List Mapping) :
    (exec_update cfg db ms).metadata = db.metadata ∧
      (exec_update cfg db ms).yaml_files = db.yaml_files := by
  unfold exec_update
  split <;> exact ⟨rfl, rfl⟩

/-- With `parent_model` unset and distinct primary keys, processing writes
each row its resolved weight. -/
theorem process_data_rows (cfg : ImporterConfig) (hpar : cfg.parent = false)
    (validated : List SlugWeight) (db : DB)
    (hnd : (db.rows.map TargetRow.id).Nodup) :
    (process_data cfg db.rows validated db).1.rows =
      db.rows.map (fun r => { r with
        weight := resolveWeight validated r.slug }) := by
  have hbm : build_mappings cfg db.rows validated =
      db.rows.map (fun item =>
        { id := item.id, weight := resolveWeight validated item.slug }) := by
    unfold build_mappings
    rw [hpar]
    simp
  simp only [process_data, exec_update, hpar, Bool.false_eq_true, if_false,
    hbm, foldl_applyMappingRow]
  refine List.map_congr_left ?_
  intro r hr
  exact foldl_stepRow_map (fun x => rfl) db.rows hnd r hr

/-- A document containing a negative weight fails validation. -/
theorem validate_list_neg {raw : List RawEntry} {e : RawEntry} (he : e ∈ raw)
    (hneg : e.weight < 0) : validate_list raw = none := by
  induction raw with
  | nil => cases he
  | cons a rest ih =>
    rcases List.mem_cons.mp he with rfl | he2
    · have hlt : ¬ 0 ≤ e.weight := not_le.mpr hneg
      simp [validate_list, validate_entry, hlt]
    · rcases hva : validate_entry a with _ | w
      · simp [validate_list, hva]
      · simp [validate_list, hva, ih he2]

theorem validate_data_neg {raw : List RawEntry} {e : RawEntry} (he : e ∈ raw)
    (hneg : e.weight < 0) : validate_data raw = .error ("Validation error") := by
  unfold validate_data
  rw [validate_list_neg he hneg]

theorem resolveWeight_nil (slug : String) : resolveWeight [] slug = 0 := rfl

theorem findMetadata_ext {db db2 : DB} (h : db2.metadata = db.metadata)
    (path : String) : findMetadata db2 path = findMetadata db path := by
  unfold findMetadata
  rw [h]

/-- Branch equation: the no-op branch of `import_data`. -/
theorem import_data_eq_noop {cfg : ImporterConfig} {env : Env} {force : Bool}
    {db : DB}
    (h : ((handle_file_metadata cfg env force db).2 || force) = false) :
    import_data cfg env force db =
      { outcome := .ok (),
        session_db := (handle_file_metadata cfg env force db).1,
        committed_db := db,
        file_updated := (handle_file_metadata cfg env force db).2,
        updates := [], fileLoaded := true, rowsLoaded := false,
        validationRun := false, commitAttempted := false,
        log := (load_yaml_data env).2 } := by
  simp only [import_data]
  rw [if_neg (by simp [h])]

/-- Branch equation: the validation-error branch of `import_data`. -/
theorem import_data_eq_error {cfg : ImporterConfig} {env : Env} {force : Bool}
    {db : DB} {e : String}
    (h : ((handle_file_metadata cfg env force db).2 || force) = true)
    (hval : validate_data (load_yaml_data env).1 = .error e) :
    import_data cfg env force db =
      { outcome := .error e,
        session_db := (handle_file_metadata cfg env force db).1,
        committed_db := db,
        file_updated := (handle_file_metadata cfg env force db).2,
        updates := [], fileLoaded := true, rowsLoaded := true,
        validationRun := true, commitAttempted := false,
        log := (load_yaml_data env).2 ++ ["Validation error"] } := by
  simp only [import_data]
  rw [if_pos h]
  simp only [hval]

/-- Branch equation: the commit-failure branch of `import_data`. -/
theorem import_data_eq_commit_fail {cfg : ImporterConfig} {env : Env}
    {force : Bool} {db : DB} {v : List SlugWeight}
    (h : ((handle_file_metadata cfg env force db).2 || force) = true)
    (hval : validate_data (load_yaml_data env).1 = .ok v)
    (hcf : env.commitFails = true) :
    import_data cfg env force db =
      { outcome := .ok (), session_db := db, committed_db := db,
        file_updated := (handle_file_metadata cfg env force db).2,
        updates := [(process_data cfg (handle_file_metadata cfg env force db).1.rows
          v (handle_file_metadata cfg env force db).1).2],
        fileLoaded := true, rowsLoaded := true,
        validationRun := true, commitAttempted := true,
        log := (load_yaml_data env).2 ++
          ["Error committing changes to the database"] } := by
  simp only [import_data]
  rw [if_pos h]
  simp only [hval]
  rw [if_pos hcf]

/-- Branch equation: the successful-commit branch of `import_data`. -/
theorem import_data_eq_ok {cfg : ImporterConfig} {env : Env}
    {force : Bool} {db : DB} {v : List SlugWeight}
    (h : ((handle_file_metadata cfg env force db).2 || force) = true)
    (hval : validate_data (load_yaml_data env).1 = .ok v)
    (hcf : env.commitFails = false) :
    import_data cfg env force db =
      { outcome := .ok (),
        session_db := (process_data cfg (handle_file_metadata cfg env force db).1.rows
          v (handle_file_metadata cfg env force db).1).1,
        committed_db := (process_data cfg (handle_file_metadata cfg env force db).1.rows
          v (handle_file_metadata cfg env force db).1).1,
        file_updated := (handle_file_metadata cfg env force db).2,
        updates := [(process_data cfg (handle_file_metadata cfg env force db).1.rows
          v (handle_file_metadata cfg env force db).1).2],
        fileLoaded := true, rowsLoaded := true,
        validationRun := true, commitAttempted := true,
        log := (load_yaml_data env).2 } := by
  simp only [import_data]
  rw [if_pos h]
  simp only [hval]
  rw [if_neg (by simp [hcf])]

/-- The `file_updated` flag returned by `import_data` is the one computed by
the reconcile step. -/
theorem import_data_file_updated (cfg : ImporterConfig) (env : Env)
    (force : Bool) (db : DB) :
    (import_data cfg env force db).file_updated =
      (handle_file_metadata cfg env force db).2 := by
  rcases htrig : ((handle_file_metadata cfg env force db).2 || force) with _ | _
  · rw [import_data_eq_noop htrig]
  · rcases hval : validate_data (load_yaml_data env).1 with e | v
    · rw [import_data_eq_error htrig hval]
    · rcases hcf : env.commitFails with _ | _
      · rw [import_data_eq_ok htrig hval hcf]
      · rw [import_data_eq_commit_fail htrig hval hcf]

/-- When the fingerprint matches and `force` is unset, the whole call is a
no-op. -/
theorem import_data_noop {cfg : ImporterConfig} {env : Env} {db : DB}
    {m : FileMetadata} (hm : findMetadata db cfg.file_path = some m)
    (hh : m.hash = env.currentHash) :
    import_data cfg env false db =
      { outcome := .ok (), session_db := db, committed_db := db,
        file_updated := false, updates := [], fileLoaded := true,
        rowsLoaded := false, validationRun := false, commitAttempted := false,
        log := (load_yaml_data env).2 } := by
  have hhandle : handle_file_metadata cfg env false db = (db, false) := by
    simp [handle_file_metadata, hm, hh]
  rw [import_data_eq_noop (by rw [hhandle]; rfl)]
  rw [hhandle]

/-- After a call that returns normally with a working commit, the first
metadata row for the path carries the current content hash. -/
theorem import_data_ok_hash {cfg : ImporterConfig} {env : Env} {force : Bool}
    {db : DB} (hok : (import_data cfg env force db).outcome = .ok ())
    (hcf : env.commitFails = false) :
    ∃ m, findMetadata (import_data cfg env force db).committed_db
        cfg.file_path = some m ∧ m.hash = env.currentHash := by
  rcases htrig : ((handle_file_metadata cfg env force db).2 || force) with _ | _
  · rw [import_data_eq_noop htrig]
    have hup : (handle_file_metadata cfg env force db).2 = false := by
      rcases Bool.or_eq_false_iff.mp htrig with ⟨h1, _⟩
      exact h1
    have hdb : (handle_file_metadata cfg env force db).1 = db :=
      handle_file_metadata_noop hup
    have := handle_file_metadata_hash cfg env force db
    rw [hdb] at this
    exact this
  · rcases hval : validate_data (load_yaml_data env).1 with e | v
    · rw [import_data_eq_error htrig hval] at hok
      simp at hok
    · rw [import_data_eq_ok htrig hval hcf]
      have hmeta :=
        (exec_update_metadata cfg (handle_file_metadata cfg env force db).1
          (build_mappings cfg (handle_file_metadata cfg env force db).1.rows v)).1
      have hfm := handle_file_metadata_hash cfg env force db
      rcases hfm with ⟨m, hm1, hm2⟩
      refine ⟨m, ?_, hm2⟩
      rw [show (process_data cfg (handle_file_metadata cfg env force db).1.rows
          v (handle_file_metadata cfg env force db).1).1 =
        exec_update cfg (handle_file_metadata cfg env force db).1
          (build_mappings cfg (handle_file_metadata cfg env force db).1.rows v)
        from rfl]
      rw [findMetadata_ext hmeta]
      exact hm1

theorem find?_filter_of_imp {α : Type} (l : List α) (p q : α → Bool)
    (h : ∀ x ∈ l, q x = true → p x = true) :
    (l.filter p).find? q = l.find? q := by
  induction l with
  | nil => rfl
  | cons a rest ih =>
    have ih2 := ih (fun x hx => h x (List.mem_cons_of_mem a hx))
    rcases hq : q a with _ | _
    · rcases hp : p a with _ | _
      · simp [List.filter_cons, hp, List.find?_cons, hq, ih2]
      · simp [List.filter_cons, hp, List.find?_cons, hq, ih2]
    · have hp := h a (List.mem_cons_self a rest) hq
      simp [List.filter_cons, hp, List.find?_cons, hq]

theorem resolveWeight_filter (validated : List SlugWeight) (p : SlugWeight → Bool)
    (s : String) (h : ∀ d ∈ validated, d.slug = s → p d = true) :
    resolveWeight (validated.filter p) s = resolveWeight validated s := by
  unfold resolveWeight
  rw [find?_filter_of_imp]
  intro d hd hq
  exact h d hd (by simpa using hq)

/-! ### Claims -/

/-- C1: For every existing row passed to the weight applier, the weight
written for that row equals the weight of the first validated entry (in
input order) whose slug equals the slug of the row, and equals 0 when no
validated entry has a matching slug; in particular, for input
[slug a weight 5, slug b weight 3] and existing rows with slugs a, b, c,
after import a.weight = 5, b.weight = 3, c.weight = 0. -/
theorem claim_C1 :
    (∀ (cfg : ImporterConfig) (validated : List SlugWeight) (db : DB),
      cfg.parent = false → (db.rows.map TargetRow.id).Nodup →
      (process_data cfg db.rows validated db).1.rows =
        db.rows.map (fun r =>
          { r with weight := resolveWeight validated r.slug })) ∧
    (import_data cfgA envA false dbA).committed_db.rows.map TargetRow.weight
      = [5, 3, 0] := by
  constructor
  · intro cfg validated db hp hnd
    exact process_data_rows cfg hp validated db hnd
  · decide

/-- Witness for C1: the general part of the claim, instantiated at the
concrete fixture. -/
theorem claim_C1_witness :
    (process_data cfgA dbA.rows [⟨"a", 5⟩] dbA).1.rows =
      dbA.rows.map (fun r =>
        { r with weight := resolveWeight [⟨"a", 5⟩] r.slug }) :=
  claim_C1.1 cfgA [⟨"a", 5⟩] dbA rfl (by decide)

/-- C10: For every list of existing rows and every validated input, the
weight applier builds exactly one update record per existing row (in row
order) and no more; validated entries whose slug matches no existing row
contribute no update record and have no effect on the store. -/
theorem claim_C10 :
    ∀ (cfg : ImporterConfig) (items : List TargetRow)
      (validated : List SlugWeight),
      (build_mappings cfg items validated).length = items.length ∧
      (∀ i : Nat, (build_mappings cfg items validated)[i]? =
        (items[i]?).map (fun item =>
          ({ id := if cfg.parent then item.parent_id else item.id,
             weight := resolveWeight validated item.slug } : Mapping))) ∧
      build_mappings cfg items
          (validated.filter (fun d =>
            items.any (fun it => it.slug == d.slug))) =
        build_mappings cfg items validated := by
  intro cfg items validated
  refine ⟨?_, ?_, ?_⟩
  · simp [build_mappings]
  · intro i
    simp [build_mappings]
  · unfold build_mappings
    refine List.map_congr_left ?_
    intro item hitem
    have hres : resolveWeight (validated.filter (fun d =>
        items.any (fun it => it.slug == d.slug))) item.slug =
        resolveWeight validated item.slug := by
      refine resolveWeight_filter validated _ item.slug ?_
      intro d hd hds
      refine List.any_eq_true.mpr ⟨item, hitem, ?_⟩
      simp [hds]
    rw [hres]

/-- C2: For every import call where a FileRecord already exists for the
path, the stored hash equals the current content hash, and force = false,
the call reports changed = false and issues no update statement;
consequently running import(force = false) twice in a row with no file
modification between calls performs zero additional writes to target rows
on the second call (idempotence). -/
theorem claim_C2 :
    (∀ (cfg : ImporterConfig) (env : Env) (db : DB) (m : FileMetadata),
      findMetadata db cfg.file_path = some m → m.hash = env.currentHash →
      (import_data cfg env false db).file_updated = false ∧
      (import_data cfg env false db).updates = []) ∧
    (∀ (cfg : ImporterConfig) (env : Env) (db : DB),
      (import_data cfg env false db).outcome = .ok () →
      env.commitFails = false →
      (import_data cfg env false
        (import_data cfg env false db).committed_db).updates = [] ∧
      (import_data cfg env false
          (import_data cfg env false db).committed_db).committed_db =
        (import_data cfg env false db).committed_db) := by
  constructor
  · intro cfg env db m hm hh
    rw [import_data_noop hm hh]
    exact ⟨rfl, rfl⟩
  · intro cfg env db hok hcf
    rcases import_data_ok_hash hok hcf with ⟨m, hm, hh⟩
    rw [import_data_noop hm hh]
    exact ⟨rfl, rfl⟩

/-- Witness for C2: both parts of the claim at concrete fixtures — a call
on a database already tracking the current hash, and a repeated call. -/
theorem claim_C2_witness :
    ((import_data cfgA envA false dbB).file_updated = false ∧
      (import_data cfgA envA false dbB).updates = []) ∧
    ((import_data cfgA envA false
        (import_data cfgA envA false dbA).committed_db).updates = [] ∧
      (import_data cfgA envA false
          (import_data cfgA envA false dbA).committed_db).committed_db =
        (import_data cfgA envA false dbA).committed_db) :=
  ⟨claim_C2.1 cfgA envA dbB mA (by decide) (by decide),
    claim_C2.2 cfgA envA dbA rfl rfl⟩

/-- C4: For every path with no existing FileRecord, the first reconcile
call reports changed = true and creates exactly one FileRecord (with the
current content hash and timestamp) plus exactly one linked ImportedFile
carrying the content type of the importer; no other import operation ever
creates or deletes these records. -/
theorem claim_C4 :
    (∀ (cfg : ImporterConfig) (env : Env) (force : Bool) (db : DB),
      findMetadata db cfg.file_path = none →
      handle_file_metadata cfg env force db =
        ({ db with
            metadata := db.metadata ++
              [⟨cfg.file_path, env.currentHash, env.now⟩],
            yaml_files := db.yaml_files ++
              [⟨cfg.file_path, cfg.content_type⟩] }, true)) ∧
    (∀ (cfg : ImporterConfig) (env : Env) (force : Bool) (db : DB)
      (m : FileMetadata), findMetadata db cfg.file_path = some m →
      (handle_file_metadata cfg env force db).1.metadata.length =
        db.metadata.length ∧
      (handle_file_metadata cfg env force db).1.yaml_files =
        db.yaml_files) ∧
    (∀ (cfg : ImporterConfig) (db : DB) (ms : List Mapping),
      (exec_update cfg db ms).metadata = db.metadata ∧
      (exec_update cfg db ms).yaml_files = db.yaml_files) := by
  refine ⟨?_, ?_, ?_⟩
  · intro cfg env force db h
    simp [handle_file_metadata, h]
  · intro cfg env force db m hm
    by_cases hcond : (m.hash != env.currentHash || force) = true
    · constructor
      · simp only [handle_file_metadata, hm, if_pos hcond]
        exact updateMetadata_length db.metadata cfg.file_path
          env.currentHash env.now
      · simp only [handle_file_metadata, hm, if_pos hcond]
    · constructor
      · simp only [handle_file_metadata, hm, if_neg hcond]
      · simp only [handle_file_metadata, hm, if_neg hcond]
  · intro cfg db ms
    exact exec_update_metadata cfg db ms

/-- Witness for C4: a never-seen file creates exactly the two records, and
an already-tracked file creates none. -/
theorem claim_C4_witness :
    handle_file_metadata cfgA envA false dbA =
      ({ dbA with
          metadata := dbA.metadata ++
            [⟨cfgA.file_path, envA.currentHash, envA.now⟩],
          yaml_files := dbA.yaml_files ++
            [⟨cfgA.file_path, cfgA.content_type⟩] }, true) ∧
    (handle_file_metadata cfgA envA false dbB).1.metadata.length =
      dbB.metadata.length :=
  ⟨claim_C4.1 cfgA envA false dbA (by decide),
    (claim_C4.2.1 cfgA envA false dbB mA (by decide)).1⟩

/-- C3 counterexample: the claim says every import call with force = true
on an already-tracked path issues the bulk update statement; but when the
loaded document fails validation (here an entry with weight -1), the call
raises instead and issues no update statement at all. -/
theorem claim_C3_counterexample :
    findMetadata dbB cfgA.file_path = some mA ∧
    (import_data cfgA envNegA true dbB).updates = [] ∧
    (import_data cfgA envNegA true dbB).outcome =
      .error ("Validation error") :=
  ⟨by decide, by decide, rfl⟩

/-- C3 amended: for every import call with force = true on a path whose
FileRecord already exists and whose loaded document validates
successfully, changed is reported as true regardless of whether the
stored hash equals the current content hash, the stored hash and
last-modified timestamp are rewritten in the session, and the bulk update
statement is issued even when the file content is identical to the stored
fingerprint. -/
theorem claim_C3_amended (cfg : ImporterConfig) (env : Env) (db : DB)
    (m : FileMetadata) (v : List SlugWeight)
    (hm : findMetadata db cfg.file_path = some m)
    (hval : validate_data (load_yaml_data env).1 = .ok v) :
    (import_data cfg env true db).file_updated = true ∧
    (import_data cfg env true db).updates =
      [build_mappings cfg db.rows v] ∧
    findMetadata (handle_file_metadata cfg env true db).1 cfg.file_path =
      some { m with hash := env.currentHash, last_modified := env.now } := by
  have hcond : (m.hash != env.currentHash || true) = true := by simp
  have hhandle : handle_file_metadata cfg env true db =
      ({ db with metadata :=
          (updateMetadata db.metadata cfg.file_path env.currentHash env.now) },
        true) := by
    simp only [handle_file_metadata, hm]
    rw [if_pos hcond]
  have hrows : (handle_file_metadata cfg env true db).1.rows = db.rows :=
    (handle_file_metadata_rows cfg env true db).1
  have htrig : ((handle_file_metadata cfg env true db).2 || true) = true := by
    simp
  refine ⟨?_, ?_, ?_⟩
  · rw [import_data_file_updated, hhandle]
  · rcases hcf : env.commitFails with _ | _
    · rw [import_data_eq_ok htrig hval hcf]
      show [(process_data cfg (handle_file_metadata cfg env true db).1.rows
        v (handle_file_metadata cfg env true db).1).2] = _
      rw [show (process_data cfg (handle_file_metadata cfg env true db).1.rows
          v (handle_file_metadata cfg env true db).1).2 =
        build_mappings cfg (handle_file_metadata cfg env true db).1.rows v
        from rfl]
      rw [hrows]
    · rw [import_data_eq_commit_fail htrig hval hcf]
      show [(process_data cfg (handle_file_metadata cfg env true db).1.rows
        v (handle_file_metadata cfg env true db).1).2] = _
      rw [show (process_data cfg (handle_file_metadata cfg env true db).1.rows
          v (handle_file_metadata cfg env true db).1).2 =
        build_mappings cfg (handle_file_metadata cfg env true db).1.rows v
        from rfl]
      rw [hrows]
  · rw [hhandle]
    exact updateMetadata_find?_some env.currentHash env.now hm

/-- Witness for C3 (amended): a forced call on a database already tracking
the identical content hash reports changed and issues the update. -/
theorem claim_C3_witness :
    (import_data cfgA envA true dbB).file_updated = true ∧
    (import_data cfgA envA true dbB).updates =
      [build_mappings cfgA dbB.rows [⟨"a", 5⟩, ⟨"b", 3⟩]] :=
  ⟨(claim_C3_amended cfgA envA dbB mA _ (by decide) rfl).1,
    (claim_C3_amended cfgA envA dbB mA _ (by decide) rfl).2.1⟩

/-- C5: For every input containing an entry with a negative weight,
validation logs a diagnostic and re-raises the validation error as a fatal
uncaught exception; the bulk update statement is never executed and the
transaction is never committed, leaving all target rows unmodified. -/
theorem claim_C5 (cfg : ImporterConfig) (env : Env) (force : Bool) (db : DB)
    (raw : List RawEntry) (e : RawEntry) (hp : env.parseResult = some raw)
    (he : e ∈ raw) (hneg : e.weight < 0) :
    (import_data cfg env force db).updates = [] ∧
    (import_data cfg env force db).committed_db = db ∧
    (import_data cfg env force db).commitAttempted = false ∧
    (((import_data cfg env force db).file_updated || force) = true →
      (import_data cfg env force db).outcome = .error ("Validation error") ∧
      "Validation error" ∈ (import_data cfg env force db).log) := by
  have hld : load_yaml_data env = (raw, []) := by
    simp [load_yaml_data, hp]
  have hval : validate_data (load_yaml_data env).1 =
      .error ("Validation error") := by
    rw [hld]
    exact validate_data_neg he hneg
  rcases htrig : ((handle_file_metadata cfg env force db).2 || force)
      with _ | _
  · rw [import_data_eq_noop htrig]
    refine ⟨rfl, rfl, rfl, ?_⟩
    intro hbad
    have hbad2 : ((handle_file_metadata cfg env force db).2 || force) = true :=
      hbad
    rw [htrig] at hbad2
    exact absurd hbad2 Bool.false_ne_true
  · rw [import_data_eq_error htrig hval]
    refine ⟨rfl, rfl, rfl, fun _ => ⟨rfl, ?_⟩⟩
    exact List.mem_append_right _ (List.mem_singleton.mpr rfl)

/-- Witness for C5: a forced import of a document with weight -1 raises
and leaves the store untouched. -/
theorem claim_C5_witness :
    (import_data cfgA envNegA false dbA).updates = [] ∧
    (import_data cfgA envNegA false dbA).committed_db = dbA ∧
    (import_data cfgA envNegA false dbA).outcome =
      .error ("Validation error") := by
  have h := claim_C5 cfgA envNegA false dbA [⟨"a", -1⟩] ⟨"a", -1⟩ rfl
    (by decide) (by decide)
  exact ⟨h.1, h.2.1, (h.2.2.2 (by decide)).1⟩

/-- C6: For every load call that fails to open or parse the input file,
the loader logs a diagnostic and returns an empty sequence instead of
raising; an import that is otherwise triggered (changed or forced) then
proceeds with this empty input, so the weight of every target row is reset to 0
rather than the import aborting. -/
theorem claim_C6 (cfg : ImporterConfig) (env : Env) (force : Bool) (db : DB)
    (hp : env.parseResult = none) :
    load_yaml_data env = ([], ["Error loading YAML data"]) ∧
    "Error loading YAML data" ∈ (import_data cfg env force db).log ∧
    (import_data cfg env force db).outcome = .ok () ∧
    (((import_data cfg env force db).file_updated || force) = true →
      cfg.parent = false → (db.rows.map TargetRow.id).Nodup →
      env.commitFails = false →
      ∀ r ∈ (import_data cfg env force db).committed_db.rows,
        r.weight = 0) := by
  have hld : load_yaml_data env = ([], ["Error loading YAML data"]) := by
    simp [load_yaml_data, hp]
  have hval : validate_data (load_yaml_data env).1 = .ok [] := by
    rw [hld]
    rfl
  rcases htrig : ((handle_file_metadata cfg env force db).2 || force)
      with _ | _
  · rw [import_data_eq_noop htrig]
    refine ⟨hld, ?_, rfl, ?_⟩
    · rw [hld]
      exact List.mem_singleton.mpr rfl
    · intro hbad
      have hbad2 : ((handle_file_metadata cfg env force db).2 || force) =
          true := hbad
      rw [htrig] at hbad2
      exact absurd hbad2 Bool.false_ne_true
  · refine ⟨hld, ?_, ?_, ?_⟩
    · rcases hcf : env.commitFails with _ | _
      · rw [import_data_eq_ok htrig hval hcf, hld]
        exact List.mem_append_left _ (List.mem_singleton.mpr rfl)
      · rw [import_data_eq_commit_fail htrig hval hcf, hld]
        exact List.mem_append_left _ (List.mem_singleton.mpr rfl)
    · rcases hcf : env.commitFails with _ | _
      · rw [import_data_eq_ok htrig hval hcf]
      · rw [import_data_eq_commit_fail htrig hval hcf]
    · intro _ hpar hnd hcf
      rw [import_data_eq_ok htrig hval hcf]
      have hrows : (handle_file_metadata cfg env force db).1.rows = db.rows :=
        (handle_file_metadata_rows cfg env force db).1
      have hnd2 : (((handle_file_metadata cfg env force db).1.rows).map
          TargetRow.id).Nodup := by
        rw [hrows]
        exact hnd
      have hpd := process_data_rows cfg hpar []
        (handle_file_metadata cfg env force db).1 hnd2
      simp only
      rw [hpd]
      intro r hr
      rcases List.mem_map.mp hr with ⟨x, _, rfl⟩
      rfl

/-- Witness for C6: a first import of an unparseable file resets every
target row weight to 0 without raising. -/
theorem claim_C6_witness :
    "Error loading YAML data" ∈ (import_data cfgA envNoneA false dbA).log ∧
    ∀ r ∈ (import_data cfgA envNoneA false dbA).committed_db.rows,
      r.weight = 0 := by
  have h := claim_C6 cfgA envNoneA false dbA rfl
  exact ⟨h.2.1, h.2.2.2 (by decide) rfl (by decide) rfl⟩

/-- C7: For every commit attempt that fails, the orchestrator logs a
diagnostic, rolls back the transaction discarding all changes made in this
call (both file-metadata updates and weight updates), and does not
re-raise the failure; the caller can only observe the failure via the log
line and a possibly stale returned changed flag. -/
theorem claim_C7 (cfg : ImporterConfig) (env : Env) (force : Bool) (db : DB)
    (hcf : env.commitFails = true) :
    (import_data cfg env force db).committed_db = db ∧
    (import_data cfg env force db).outcome =
      (import_data cfg { env with commitFails := false } force db).outcome ∧
    ((import_data cfg env force db).outcome = .ok () →
      (import_data cfg env force db).session_db = db) ∧
    ((import_data cfg env force db).commitAttempted = true →
      "Error committing changes to the database" ∈
        (import_data cfg env force db).log) := by
  have htrig2same :
      (handle_file_metadata cfg { env with commitFails := false } force db) =
        handle_file_metadata cfg env force db := rfl
  have hld2same : load_yaml_data { env with commitFails := false } =
      load_yaml_data env := rfl
  rcases htrig : ((handle_file_metadata cfg env force db).2 || force)
      with _ | _
  · have htrig2 : ((handle_file_metadata cfg
        { env with commitFails := false } force db).2 || force) = false := by
      rw [htrig2same]
      exact htrig
    rw [import_data_eq_noop htrig, import_data_eq_noop htrig2]
    have hup : (handle_file_metadata cfg env force db).2 = false :=
      (Bool.or_eq_false_iff.mp htrig).1
    refine ⟨rfl, rfl, fun _ => handle_file_metadata_noop hup, ?_⟩
    intro hbad
    exact absurd hbad Bool.false_ne_true
  · rcases hval : validate_data (load_yaml_data env).1 with e | v
    · have htrig2 : ((handle_file_metadata cfg
          { env with commitFails := false } force db).2 || force) = true := by
        rw [htrig2same]
        exact htrig
      have hval2 : validate_data
          (load_yaml_data { env with commitFails := false }).1 = .error e := by
        rw [hld2same]
        exact hval
      rw [import_data_eq_error htrig hval, import_data_eq_error htrig2 hval2]
      refine ⟨rfl, rfl, ?_, ?_⟩
      · intro hbad
        simp at hbad
      · intro hbad
        exact absurd hbad Bool.false_ne_true
    · have htrig2 : ((handle_file_metadata cfg
          { env with commitFails := false } force db).2 || force) = true := by
        rw [htrig2same]
        exact htrig
      have hval2 : validate_data
          (load_yaml_data { env with commitFails := false }).1 = .ok v := by
        rw [hld2same]
        exact hval
      rw [import_data_eq_commit_fail htrig hval hcf,
        import_data_eq_ok htrig2 hval2 rfl]
      refine ⟨rfl, rfl, fun _ => rfl, fun _ => ?_⟩
      exact List.mem_append_right _ (List.mem_singleton.mpr rfl)

/-- Witness for C7: a failing commit on a fresh import leaves both the
committed and the session state untouched. -/
theorem claim_C7_witness :
    (import_data cfgA envCFA false dbA).committed_db = dbA ∧
    (import_data cfgA envCFA false dbA).session_db = dbA ∧
    "Error committing changes to the database" ∈
      (import_data cfgA envCFA false dbA).log := by
  have h := claim_C7 cfgA envCFA false dbA rfl
  exact ⟨h.1, h.2.2.1 rfl, h.2.2.2 rfl⟩

/-- C8 counterexample: the claim says that when neither changed nor force
holds, the call performs none of the listed steps, including opening and
parsing the file; but the code opens and parses the file before checking
the flag, so even a complete no-op call loads the file. -/
theorem claim_C8_counterexample :
    (import_data cfgA envA false dbB).file_updated = false ∧
    (import_data cfgA envA false dbB).updates = [] ∧
    (import_data cfgA envA false dbB).rowsLoaded = false ∧
    (import_data cfgA envA false dbB).fileLoaded = true :=
  ⟨by decide, by decide, by decide, by decide⟩

/-- C8 amended: the orchestrator first reconciles the file fingerprint and
then unconditionally opens and parses the file; only if changed or force
does it load the target rows, validate, apply, and commit; otherwise none
of those remaining steps are performed. -/
theorem claim_C8_amended (cfg : ImporterConfig) (env : Env) (force : Bool)
    (db : DB) :
    (import_data cfg env force db).fileLoaded = true ∧
    (((import_data cfg env force db).file_updated || force) = false →
      (import_data cfg env force db).rowsLoaded = false ∧
      (import_data cfg env force db).validationRun = false ∧
      (import_data cfg env force db).updates = [] ∧
      (import_data cfg env force db).commitAttempted = false ∧
      (import_data cfg env force db).committed_db = db) ∧
    (((import_data cfg env force db).file_updated || force) = true →
      (import_data cfg env force db).rowsLoaded = true ∧
      (import_data cfg env force db).validationRun = true ∧
      ((import_data cfg env force db).outcome = .ok () →
        (import_data cfg env force db).updates ≠ [] ∧
        (import_data cfg env force db).commitAttempted = true)) := by
  rcases htrig : ((handle_file_metadata cfg env force db).2 || force)
      with _ | _
  · rw [import_data_eq_noop htrig]
    refine ⟨rfl, fun _ => ⟨rfl, rfl, rfl, rfl, rfl⟩, ?_⟩
    intro hbad
    have hbad2 : ((handle_file_metadata cfg env force db).2 || force) =
        true := hbad
    rw [htrig] at hbad2
    exact absurd hbad2 Bool.false_ne_true
  · rcases hval : validate_data (load_yaml_data env).1 with e | v
    · rw [import_data_eq_error htrig hval]
      refine ⟨rfl, ?_, fun _ => ⟨rfl, rfl, ?_⟩⟩
      · intro hbad
        have hbad2 : ((handle_file_metadata cfg env force db).2 || force) =
            false := hbad
        rw [htrig] at hbad2
        exact absurd hbad2.symm Bool.false_ne_true
      · intro hbad
        simp at hbad
    · rcases hcf : env.commitFails with _ | _
      · rw [import_data_eq_ok htrig hval hcf]
        refine ⟨rfl, ?_, fun _ => ⟨rfl, rfl, fun _ => ⟨by simp, rfl⟩⟩⟩
        intro hbad
        have hbad2 : ((handle_file_metadata cfg env force db).2 || force) =
            false := hbad
        rw [htrig] at hbad2
        exact absurd hbad2.symm Bool.false_ne_true
      · rw [import_data_eq_commit_fail htrig hval hcf]
        refine ⟨rfl, ?_, fun _ => ⟨rfl, rfl, fun _ => ⟨by simp, rfl⟩⟩⟩
        intro hbad
        have hbad2 : ((handle_file_metadata cfg env force db).2 || force) =
            false := hbad
        rw [htrig] at hbad2
        exact absurd hbad2.symm Bool.false_ne_true

/-- Witness for C8 (amended): a triggered first import loads the file,
loads the rows, validates, issues the update and commits. -/
theorem claim_C8_witness :
    (import_data cfgA envA false dbA).fileLoaded = true ∧
    (import_data cfgA envA false dbA).rowsLoaded = true ∧
    (import_data cfgA envA false dbA).updates ≠ [] := by
  have h := claim_C8_amended cfgA envA false dbA
  exact ⟨h.1, (h.2.2 (by decide)).1, ((h.2.2 (by decide)).2.2 rfl).1⟩

/-- C9: For every call to the caller-facing run operation, the explicit
force flag is ORed with the supplied force_conditions before the import
runs, and the boolean returned equals whether the file was considered
updated (a new FileRecord was created, the stored hash differed from the
current hash, or force held, for an existing record). -/
theorem claim_C9 (cfg : ImporterConfig) (env : Env) (force : Bool)
    (conds : List Bool) (db : DB) :
    run_weight_importer cfg env force conds db =
      (import_data cfg env (force || conds.any id) db,
        (import_data cfg env (force || conds.any id) db).file_updated) ∧
    ((run_weight_importer cfg env force conds db).2 = true ↔
      (findMetadata db cfg.file_path = none ∨
        ∃ m, findMetadata db cfg.file_path = some m ∧
          (m.hash ≠ env.currentHash ∨ (force || conds.any id) = true))) := by
  refine ⟨rfl, ?_⟩
  show (import_data cfg env (force || conds.any id) db).file_updated
      = true ↔ _
  rw [import_data_file_updated]
  exact handle_file_metadata_updated_iff cfg env (force || conds.any id) db

/-- Witness for C9: on a database not yet tracking the file, run returns
true. -/
theorem claim_C9_witness :
    (run_weight_importer cfgA envA false [] dbA).2 = true :=
  (claim_C9 cfgA envA false [] dbA).2.mpr (Or.inl (by decide))

end SNI
